import Mathlib

/-!
# Verification of the perspective-grid ArUco tracking subsystem

Shallow embedding of the grid-tracking code of `perspective_grid.py` and
`grid_aruco_tracker.py` (quantum_theater repository): the grid mapper
(`get_grid_section`), the corner resolver (`determine_grid_corners`), the
perspective-transform pipeline (`calculate_perspective_transform`), the two
marker memory stores, and the per-frame tracking step that maintains the
persisted `marker_id → grid_section` mapping.

Image coordinates are modelled as rationals; Python `int()` on a float is
truncation toward zero, modelled by `pyTrunc`.  Python dicts are modelled as
association lists in insertion order (`dictInsert` keeps an existing key in
place, appends a new one).  Python's stable `list.sort` is modelled by a
stable insertion sort (`sortByX`); stable ascending sorts are extensionally
unique, so this is faithful.  The cv2 homography solve and point transform
are external numerics; the pipeline is modelled up to the decision whether a
homography is produced, and the per-frame point transform is an abstract
function parameter of the frame step.
-/

/-- Python `int()` applied to a real quantity: truncation toward zero. -/
def pyTrunc (q : ℚ) : ℤ :=
  if q < 0 then -⌊-q⌋ else ⌊q⌋

namespace PG

/-- Grid configuration of `perspective_grid.py`: `GRID_WIDTH_SECTIONS = 4`. -/
def GRID_WIDTH_SECTIONS : ℤ := 4

/-- Grid configuration of `perspective_grid.py`: `GRID_HEIGHT_SECTIONS = 3`. -/
def GRID_HEIGHT_SECTIONS : ℤ := 3

/-- Function `get_grid_section` of `perspective_grid.py` (lines 78-89): bucket a point
of the perspective-corrected space into a 1-indexed row-major grid cell.
The column index is `min(int(x / section_width), W - 1)`, likewise the row. -/
def get_grid_section (x y width height : ℚ) : ℤ :=
  let section_width := width / (GRID_WIDTH_SECTIONS : ℚ)
  let section_height := height / (GRID_HEIGHT_SECTIONS : ℚ)
  let grid_x := min (pyTrunc (x / section_width)) (GRID_WIDTH_SECTIONS - 1)
  let grid_y := min (pyTrunc (y / section_height)) (GRID_HEIGHT_SECTIONS - 1)
  grid_y * GRID_WIDTH_SECTIONS + grid_x + 1

end PG

namespace GT

/-- Function `get_grid_section` of `grid_aruco_tracker.py` (lines 44-53): the 3×3
variant, `min(int(x / section_width), 2)` in each axis. -/
def get_grid_section (x y frame_width frame_height : ℚ) : ℤ :=
  let section_width := frame_width / 3
  let section_height := frame_height / 3
  let grid_x := min (pyTrunc (x / section_width)) 2
  let grid_y := min (pyTrunc (y / section_height)) 2
  grid_y * 3 + grid_x + 1

end GT

/-- Stable insertion of a marker into a list sorted ascending by the x
coordinate of the center: the new element goes after all elements whose x is
less than or equal to its own. -/
def insertByX (a : ℤ × ℚ × ℚ) : List (ℤ × ℚ × ℚ) → List (ℤ × ℚ × ℚ)
  | [] => [a]
  | b :: l => if a.2.1 < b.2.1 then a :: b :: l else b :: insertByX a l

/-- Python's stable `list.sort(key=lambda m: m[1][0])`: elements are
processed left to right and each is inserted after its equals, which is the
unique stable ascending sort. -/
def sortByX (l : List (ℤ × ℚ × ℚ)) : List (ℤ × ℚ × ℚ) :=
  l.foldl (fun acc a => insertByX a acc) []

namespace PG

/-- Function `determine_grid_corners` of `perspective_grid.py` (lines 171-206):
requires exactly 4 candidate markers, computes the centroid of their
centers, partitions into markers strictly above the centroid's y and the
rest, sorts each partition by x ascending (stable), and returns the ids as
`(top_left, top_right, bottom_left, bottom_right)` when each partition has
exactly 2 members, failing (`none`) otherwise. -/
def determine_grid_corners (marker_centers : List (ℤ × ℚ × ℚ)) :
    Option (ℤ × ℤ × ℤ × ℤ) :=
  if marker_centers.length ≠ 4 then none
  else
    let center_y :=
      ((marker_centers.map fun m => m.2.2).sum) / (marker_centers.length : ℚ)
    let top_markers :=
      sortByX (marker_centers.filter fun m => decide (m.2.2 < center_y))
    let bottom_markers :=
      sortByX (marker_centers.filter fun m => decide (¬ (m.2.2 < center_y)))
    match top_markers, bottom_markers with
    | [t0, t1], [b0, b1] => some (t0.1, t1.1, b0.1, b1.1)
    | _, _ => none

end PG

/-- The Corner Resolver exactly as the spec words it (§4.2, steps 1-5):
compute the centroid of all given points, partition into "above" (y less
than the overall centroid y) and "below", require exactly 2 in each
partition (fail otherwise), sort each partition by x ascending, and return
`(top_left, top_right, bottom_left, bottom_right)`.  Defined for comparison
with `PG.determine_grid_corners`. -/
def cornerResolverSpec (points : List (ℤ × ℚ × ℚ)) :
    Option (ℤ × ℤ × ℤ × ℤ) :=
  let center_y := ((points.map fun m => m.2.2).sum) / (points.length : ℚ)
  let top_markers :=
    sortByX (points.filter fun m => decide (m.2.2 < center_y))
  let bottom_markers :=
    sortByX (points.filter fun m => decide (¬ (m.2.2 < center_y)))
  match top_markers, bottom_markers with
  | [t0, t1], [b0, b1] => some (t0.1, t1.1, b0.1, b1.1)
  | _, _ => none

/-- A memory entry: last seen center and the capture timestamp. -/
abbrev MemEntry : Type := (ℚ × ℚ) × ℚ

/-- A marker memory store, modelling a Python dict in insertion order. -/
abbrev Mem : Type := List (ℤ × MemEntry)

/-- Python dict assignment `d[k] = v`: an existing key is overwritten in
place (its position is kept), a new key is appended at the end. -/
def dictInsert {β : Type} (d : List (ℤ × β)) (k : ℤ) (v : β) :
    List (ℤ × β) :=
  if d.any fun p => decide (p.1 = k) then
    d.map fun p => if p.1 = k then (k, v) else p
  else d ++ [(k, v)]

/-- Python dict subscript access `d[k]` (first binding of the key). -/
def dictLookup {β : Type} (k : ℤ) : List (ℤ × β) → Option β
  | [] => none
  | p :: t => if p.1 = k then some p.2 else dictLookup k t

namespace PG

/-- Constant `REFERENCE_MARKERS = [1, 2, 3, 4]` of `perspective_grid.py`. -/
def REFERENCE_MARKERS : List ℤ := [1, 2, 3, 4]

/-- Constant `memory_timeout = 1000.0` (reference-marker memory). -/
def memory_timeout : ℚ := 1000

/-- Constant `non_corner_memory_timeout = 10.0` (object-marker memory). -/
def non_corner_memory_timeout : ℚ := 10

/-- Constant `save_interval = 1` second. -/
def save_interval : ℚ := 1

/-- Function `update_non_corner_marker_memory` (lines 91-111): upsert every detected
non-reference marker's center with the current timestamp, then delete every
entry whose age exceeds the 10 second timeout. -/
def update_non_corner_marker_memory (mem : Mem) (dets : List (ℤ × ℚ × ℚ))
    (current_time : ℚ) : Mem :=
  let mem1 := dets.foldl
    (fun m d =>
      if d.1 ∈ REFERENCE_MARKERS then m
      else dictInsert m d.1 (d.2, current_time)) mem
  mem1.filter fun p => decide (current_time - p.2.2 ≤ non_corner_memory_timeout)

/-- Function `get_all_non_corner_markers` (lines 113-124): the snapshot of the
object-marker memory — every remembered center whose age is within the
timeout, as an `id → center` association in insertion order. -/
def get_all_non_corner_markers (mem : Mem) (current_time : ℚ) :
    List (ℤ × ℚ × ℚ) :=
  (mem.filter fun p =>
    decide (current_time - p.2.2 ≤ non_corner_memory_timeout)).map
    fun p => (p.1, p.2.1)

/-- Function `cleanup_expired_markers_from_json` (lines 126-150): drop from the
persisted mapping every non-reference marker that is either missing from
the object memory or expired in it. -/
def cleanup_expired_markers_from_json (marker_data : List (ℤ × ℤ))
    (mem : Mem) (current_time : ℚ) : List (ℤ × ℤ) :=
  marker_data.filter fun kv =>
    decide (kv.1 ∈ REFERENCE_MARKERS) ||
      match dictLookup kv.1 mem with
      | some e => decide (current_time - e.2 ≤ non_corner_memory_timeout)
      | none => false

/-- The reference-marker memory update inside
`calculate_perspective_transform` (lines 214-234): upsert every detected
reference marker, then delete entries older than `memory_timeout`. -/
def update_marker_memory (mem : Mem) (dets : List (ℤ × ℚ × ℚ))
    (current_time : ℚ) : Mem :=
  (dets.foldl
    (fun m d =>
      if d.1 ∈ REFERENCE_MARKERS then dictInsert m d.1 (d.2, current_time)
      else m) mem).filter
    fun p => decide (current_time - p.2.2 ≤ memory_timeout)

/-- The `marker_centers` dict of the current frame (lines 214-221):
centers of the currently detected reference markers, in detection order. -/
def current_ref_centers (dets : List (ℤ × ℚ × ℚ)) : List (ℤ × ℚ × ℚ) :=
  dets.foldl
    (fun m d => if d.1 ∈ REFERENCE_MARKERS then dictInsert m d.1 d.2 else m) []

/-- The `all_markers` dict (lines 236-244): current detections first, then
remembered reference markers not currently detected. -/
def known_ref_markers (mem : Mem) (dets : List (ℤ × ℚ × ℚ))
    (current_time : ℚ) : List (ℤ × ℚ × ℚ) :=
  let cur := current_ref_centers dets
  let mem2 := update_marker_memory mem dets current_time
  cur ++ (mem2.filter fun p => !(cur.any fun q => decide (q.1 = p.1))).map
    fun p => (p.1, p.2.1)

/-- Function `calculate_perspective_transform` (lines 208-279), modelled up to the
external cv2 homography solve: returns the source corner points handed to
`cv2.getPerspectiveTransform` (`some` exactly when a homography is produced
for the frame, `none` on the `< 3` gate, corner-resolution failure, or a
missing corner), together with the updated reference-marker memory. -/
def calculate_perspective_transform (mem : Mem) (dets : List (ℤ × ℚ × ℚ))
    (current_time : ℚ) : Option (List (ℚ × ℚ)) × Mem :=
  let mem2 := update_marker_memory mem dets current_time
  let all_markers := known_ref_markers mem dets current_time
  if all_markers.length < 3 then (none, mem2)
  else
    match determine_grid_corners all_markers with
    | none => (none, mem2)
    | some (tl, tr, bl, br) =>
      match dictLookup tl all_markers, dictLookup tr all_markers,
          dictLookup bl all_markers, dictLookup br all_markers with
      | some p1, some p2, some p3, some p4 => (some [p1, p2, p3, p4], mem2)
      | _, _, _, _ => (none, mem2)

end PG

/-- The per-marker edge-trigger step of the save block (lines 665-671):
overwrite the stored cell only when the marker is new or its newly computed
cell differs, and record a change event exactly then. -/
def pmStep (acc : List (ℤ × ℤ) × List (ℤ × ℤ)) (kv : ℤ × ℤ) :
    List (ℤ × ℤ) × List (ℤ × ℤ) :=
  if dictLookup kv.1 acc.1 = some kv.2 then acc
  else (dictInsert acc.1 kv.1 kv.2, acc.2 ++ [kv])

/-- The whole `for marker_id, center in all_non_corner_markers` update loop
(lines 654-671), applied to the already-computed cells: returns the updated
persisted mapping and the list of emitted change events. -/
def processMarkers (d : List (ℤ × ℤ)) (computed : List (ℤ × ℤ)) :
    List (ℤ × ℤ) × List (ℤ × ℤ) :=
  computed.foldl pmStep (d, [])

/-- The mutable state of the tracking loop of `perspective_grid.py`:
reference-marker memory, object-marker memory, the persisted
`marker_id → grid_section` mapping (`marker_data`), and the last persist
time. -/
structure TrackState where
  refMem : Mem
  objMem : Mem
  markerData : List (ℤ × ℤ)
  lastSave : ℚ

/-- One frame's input: the detected markers (id, centroid), the current
time, and the frame's external point transform (the composite of
`cv2.perspectiveTransform` with the homography the frame produces — an
abstract function, since the homography solve is external numerics). -/
structure FrameInput where
  dets : List (ℤ × ℚ × ℚ)
  tnow : ℚ
  T : ℚ × ℚ → ℚ × ℚ

namespace PG

/-- One iteration of the main loop of `perspective_grid.py`
(lines 444-677), restricted to the state that survives the frame: update
the object memory (line 478), attempt the perspective transform
(line 481), and — only when a transform exists and the save interval has
elapsed (line 647) — clean up expired markers, map every remembered
non-corner marker through the frame transform into a grid section, apply
the edge-trigger update to `marker_data`, and record the save time.
Returns the new state and the emitted change events. -/
def frame_step (s : TrackState) (f : FrameInput) :
    TrackState × List (ℤ × ℤ) :=
  let objMem1 := update_non_corner_marker_memory s.objMem f.dets f.tnow
  let r := calculate_perspective_transform s.refMem f.dets f.tnow
  match r.1 with
  | none => (⟨r.2, objMem1, s.markerData, s.lastSave⟩, [])
  | some _ =>
    if save_interval ≤ f.tnow - s.lastSave then
      let data1 := cleanup_expired_markers_from_json s.markerData objMem1
        f.tnow
      let objs := get_all_non_corner_markers objMem1 f.tnow
      let computed := objs.map fun o =>
        (o.1, get_grid_section (f.T o.2).1 (f.T o.2).2 900 900)
      let res := processMarkers data1 computed
      (⟨r.2, objMem1, res.1, f.tnow⟩, res.2)
    else (⟨r.2, objMem1, s.markerData, s.lastSave⟩, [])

end PG

/-- The startup state of the tracking loop: both memories empty, the
persisted mapping initialized to the empty dict (the JSON file is cleared
at startup), `last_save_time = 0`. -/
def initState : TrackState := ⟨[], [], [], 0⟩

/-- The tracking loop run over a sequence of frames from startup. -/
def run (frames : List FrameInput) : TrackState :=
  frames.foldl (fun s f => (PG.frame_step s f).1) initState

/-- The C10 invariant: neither the object memory nor the persisted mapping
ever holds a reference-marker id as a key. -/
def StateInv (s : TrackState) : Prop :=
  (∀ k ∈ s.objMem.map Prod.fst, k ∉ PG.REFERENCE_MARKERS) ∧
    (∀ k ∈ s.markerData.map Prod.fst, k ∉ PG.REFERENCE_MARKERS)

lemma pyTrunc_eq_floor_of_nonneg {q : ℚ} (h : 0 ≤ q) : pyTrunc q = ⌊q⌋ := by
  unfold pyTrunc
  rw [if_neg (not_lt.mpr h)]

lemma pyTrunc_nonneg {q : ℚ} (h : -1 < q) : 0 ≤ pyTrunc q := by
  unfold pyTrunc
  by_cases hq : q < 0
  · rw [if_pos hq]
    have h0 : ⌊-q⌋ = 0 := by
      apply Int.floor_eq_iff.mpr
      constructor
      · push_cast
        linarith
      · push_cast
        linarith
    omega
  · rw [if_neg hq]
    exact Int.floor_nonneg.mpr (not_lt.mp hq)

lemma pyTrunc_eq_of_mem {c : ℤ} (hc : 0 ≤ c) {q : ℚ} (h1 : (c : ℚ) ≤ q)
    (h2 : q < c + 1) : pyTrunc q = c := by
  have hq : 0 ≤ q := le_trans (by exact_mod_cast hc) h1
  rw [pyTrunc_eq_floor_of_nonneg hq]
  exact Int.floor_eq_iff.mpr ⟨h1, by push_cast; exact_mod_cast h2⟩

/-- The column/row index `min (pyTrunc (x / s)) m` is in `[0, m]`
whenever the coordinate is greater than `-s` (one section width below 0). -/
lemma grid_index_bounds {m : ℤ} (hm : 0 ≤ m) {x s : ℚ} (hs : 0 < s)
    (hx : -s < x) :
    0 ≤ min (pyTrunc (x / s)) m ∧ min (pyTrunc (x / s)) m ≤ m := by
  constructor
  · apply le_min
    · apply pyTrunc_nonneg
      have h1 : (-s) / s < x / s := by gcongr
      rwa [neg_div, div_self (ne_of_gt hs)] at h1
    · exact hm
  · exact min_le_right _ _

/-- Normal form of `PG.get_grid_section` with the configuration constants
inlined. -/
lemma pg_grid_section_eq (x y w h : ℚ) :
    PG.get_grid_section x y w h =
      (min (pyTrunc (y / (h / 3))) 2) * 4 + min (pyTrunc (x / (w / 4))) 3 + 1 := by
  simp only [PG.get_grid_section, PG.GRID_WIDTH_SECTIONS, PG.GRID_HEIGHT_SECTIONS]
  norm_num

/-- Normal form of `GT.get_grid_section`. -/
lemma gt_grid_section_eq (x y w h : ℚ) :
    GT.get_grid_section x y w h =
      (min (pyTrunc (y / (h / 3))) 2) * 3 + min (pyTrunc (x / (w / 3))) 2 + 1 := by
  simp only [GT.get_grid_section]

/-- Strictly inside column `c` (of width `s`), the truncated index is `c`. -/
lemma pyTrunc_div_eq_of_strict {c : ℤ} (hc : 0 ≤ c) {x s : ℚ} (hs : 0 < s)
    (h1 : (c : ℚ) * s < x) (h2 : x < (c + 1) * s) : pyTrunc (x / s) = c := by
  apply pyTrunc_eq_of_mem hc
  · exact le_of_lt ((lt_div_iff hs).mpr h1)
  · have := (div_lt_iff hs).mpr h2
    push_cast at this ⊢
    linarith

/-- C1 counterexample: the point `(-300, 0)` of the normalized `[0,900]`
square (more than one section width below 0) is mapped to `0`, which is not
a valid cell number in `1..12`: negative coordinates are not clamped. -/
theorem c1_get_grid_section_not_clamped_below :
    PG.get_grid_section (-300) 0 900 900 = 0 ∧
      ¬ (1 ≤ PG.get_grid_section (-300) 0 900 900 ∧
          PG.get_grid_section (-300) 0 900 900 ≤ 12) := by
  have h : PG.get_grid_section (-300) 0 900 900 = 0 := by
    simp only [PG.get_grid_section, PG.GRID_WIDTH_SECTIONS,
      PG.GRID_HEIGHT_SECTIONS, pyTrunc]
    norm_num
  rw [h]
  norm_num

/-- C1 (amended): for positive grid dimensions, every point whose
coordinates are greater than one section width (resp. height) below 0 —
which covers all points slightly outside `[0,S]` from homography numerical
imprecision, and all points arbitrarily far beyond `S` — is mapped to a
valid cell in `1..W*H`, out-of-range coordinates above `S` being clamped to
an edge cell.  This holds for both `get_grid_section` variants
(`perspective_grid.py`, 4×3, and `grid_aruco_tracker.py`, 3×3).  Points at
or below one full section width below 0 produce out-of-range output. -/
theorem c1_get_grid_section_in_range (x y w h : ℚ) (hw : 0 < w) (hh : 0 < h)
    (hx : -(w / 4) < x) (hy : -(h / 3) < y)
    (hx3 : -(w / 3) < x) :
    (1 ≤ PG.get_grid_section x y w h ∧ PG.get_grid_section x y w h ≤ 12) ∧
      (1 ≤ GT.get_grid_section x y w h ∧ GT.get_grid_section x y w h ≤ 9) := by
  have hw4 : (0 : ℚ) < w / 4 := by positivity
  have hh3 : (0 : ℚ) < h / 3 := by positivity
  have hw3 : (0 : ℚ) < w / 3 := by positivity
  have hgy := grid_index_bounds (m := 2) (by norm_num) hh3 hy
  obtain ⟨hb1, hb2⟩ := hgy
  constructor
  · have hgx := grid_index_bounds (m := 3) (by norm_num) hw4 hx
    obtain ⟨ha1, ha2⟩ := hgx
    rw [pg_grid_section_eq]
    constructor
    · linarith
    · linarith
  · have hgx := grid_index_bounds (m := 2) (by norm_num) hw3 hx3
    obtain ⟨ha1, ha2⟩ := hgx
    rw [gt_grid_section_eq]
    constructor
    · linarith
    · linarith

/-- C1 witness: the slightly-negative point `(-1, -1)` in the `[0,900]`
square satisfies the amended hypotheses and lands in cell 1 of both grids. -/
theorem c1_get_grid_section_in_range_witness :
    (0 : ℚ) < 900 ∧ -((900 : ℚ) / 4) < -1 ∧ -((900 : ℚ) / 3) < -1 ∧
      (1 ≤ PG.get_grid_section (-1) (-1) 900 900 ∧
        PG.get_grid_section (-1) (-1) 900 900 ≤ 12) ∧
      (1 ≤ GT.get_grid_section (-1) (-1) 900 900 ∧
        GT.get_grid_section (-1) (-1) 900 900 ≤ 9) := by
  refine ⟨by norm_num, by norm_num, by norm_num, ?_⟩
  exact c1_get_grid_section_in_range (-1) (-1) 900 900 (by norm_num)
    (by norm_num) (by norm_num) (by norm_num) (by norm_num)

/-- C8: for every `k` in `1..12` and every point strictly inside cell `k`'s
geometric bounds (columns of width `w/4`, rows of height `h/3`, row-major
numbering with top-left cell 1), `get_grid_section` returns exactly `k`. -/
theorem c8_grid_mapper_strict_interior (k : ℕ) (hk1 : 1 ≤ k) (hk2 : k ≤ 12)
    (x y w h : ℚ) (hw : 0 < w) (hh : 0 < h)
    (hx1 : (((k - 1) % 4 : ℕ) : ℚ) * (w / 4) < x)
    (hx2 : x < ((((k - 1) % 4 : ℕ) : ℚ) + 1) * (w / 4))
    (hy1 : (((k - 1) / 4 : ℕ) : ℚ) * (h / 3) < y)
    (hy2 : y < ((((k - 1) / 4 : ℕ) : ℚ) + 1) * (h / 3)) :
    PG.get_grid_section x y w h = k := by
  have hw4 : (0 : ℚ) < w / 4 := by positivity
  have hh3 : (0 : ℚ) < h / 3 := by positivity
  have hcx : pyTrunc (x / (w / 4)) = (((k - 1) % 4 : ℕ) : ℤ) := by
    apply pyTrunc_div_eq_of_strict (Int.ofNat_nonneg _) hw4
    · push_cast at hx1 ⊢
      exact hx1
    · push_cast at hx2 ⊢
      exact hx2
  have hcy : pyTrunc (y / (h / 3)) = (((k - 1) / 4 : ℕ) : ℤ) := by
    apply pyTrunc_div_eq_of_strict (Int.ofNat_nonneg _) hh3
    · push_cast at hy1 ⊢
      exact hy1
    · push_cast at hy2 ⊢
      exact hy2
  rw [pg_grid_section_eq, hcx, hcy,
    min_eq_left (show (((k - 1) % 4 : ℕ) : ℤ) ≤ 3 by omega),
    min_eq_left (show (((k - 1) / 4 : ℕ) : ℤ) ≤ 2 by omega)]
  omega

/-- C8 witness: the point `(100, 400)` lies strictly inside cell 5 of the
4×3 grid over the `[0,900]` square, and is mapped to cell 5. -/
theorem c8_grid_mapper_strict_interior_witness :
    (((5 - 1) % 4 : ℕ) : ℚ) * (900 / 4) < 100 ∧
      (100 : ℚ) < ((((5 - 1) % 4 : ℕ) : ℚ) + 1) * (900 / 4) ∧
      (((5 - 1) / 4 : ℕ) : ℚ) * (900 / 3) < 400 ∧
      (400 : ℚ) < ((((5 - 1) / 4 : ℕ) : ℚ) + 1) * (900 / 3) ∧
      PG.get_grid_section 100 400 900 900 = 5 := by
  refine ⟨by norm_num, by norm_num, by norm_num, by norm_num, ?_⟩
  exact c8_grid_mapper_strict_interior 5 (by norm_num) (by norm_num)
    100 400 900 900 (by norm_num) (by norm_num) (by norm_num) (by norm_num)
    (by norm_num) (by norm_num)

/-- C9 counterexample: the point `(225, 150)` lies exactly on the vertical
divider between cells 1 and 2 (first row of the 4×3 grid over `[0,900]`);
the code assigns it to cell 2, the higher-numbered adjacent cell, not to
cell 1 as "lower cell wins" would require. -/
theorem c9_boundary_higher_cell_wins :
    PG.get_grid_section 225 150 900 900 = 2 ∧
      PG.get_grid_section 225 150 900 900 ≠ 1 := by
  have h : PG.get_grid_section 225 150 900 900 = 2 := by
    rw [pg_grid_section_eq]
    norm_num [pyTrunc]
  exact ⟨h, by rw [h]; norm_num⟩

lemma pyTrunc_int_mul_div {a : ℤ} (ha : 0 ≤ a) {s : ℚ} (hs : 0 < s) :
    pyTrunc ((a : ℚ) * s / s) = a := by
  rw [mul_div_assoc, div_self (ne_of_gt hs), mul_one]
  exact pyTrunc_eq_of_mem ha (le_refl _) (by push_cast; linarith)

/-- C9 (amended): a point exactly on a cell divider is assigned
deterministically to exactly one of the adjacent cells — the floor-based
tie-break gives the divider to the cell whose low edge it is, i.e. the
higher-numbered adjacent cell, never both and never neither.  The four
parts: (1) an interior vertical divider `x = c·(w/4)` (`1 ≤ c ≤ 3`) with
`y` strictly inside row `r` gives `r*4 + c + 1`, the right-hand cell, not
the left-hand `r*4 + c`; (2) an interior horizontal divider `y = r·(h/3)`
(`1 ≤ r ≤ 2`) with `x` strictly inside column `c` gives `r*4 + c + 1`, the
cell below, not the cell above `(r-1)*4 + c + 1`; (3) on the outer
boundary `x = w` the `min` clamp assigns the last column (`r*4 + 4`);
(4) on the outer boundary `y = h` it assigns the last row (`2*4 + c + 1`). -/
theorem c9_boundary_tie_break :
    (∀ (c : ℤ), 1 ≤ c → c ≤ 3 → ∀ (r : ℕ), r ≤ 2 → ∀ y w h : ℚ,
      0 < w → 0 < h → (r : ℚ) * (h / 3) < y → y < ((r : ℚ) + 1) * (h / 3) →
      PG.get_grid_section ((c : ℚ) * (w / 4)) y w h = r * 4 + c + 1) ∧
    (∀ (r : ℤ), 1 ≤ r → r ≤ 2 → ∀ (c : ℕ), c ≤ 3 → ∀ x w h : ℚ,
      0 < w → 0 < h → (c : ℚ) * (w / 4) < x → x < ((c : ℚ) + 1) * (w / 4) →
      PG.get_grid_section x ((r : ℚ) * (h / 3)) w h = r * 4 + c + 1) ∧
    (∀ (r : ℕ), r ≤ 2 → ∀ y w h : ℚ,
      0 < w → 0 < h → (r : ℚ) * (h / 3) < y → y < ((r : ℚ) + 1) * (h / 3) →
      PG.get_grid_section w y w h = r * 4 + 4) ∧
    (∀ (c : ℕ), c ≤ 3 → ∀ x w h : ℚ,
      0 < w → 0 < h → (c : ℚ) * (w / 4) < x → x < ((c : ℚ) + 1) * (w / 4) →
      PG.get_grid_section x h w h = 2 * 4 + c + 1) := by
  refine ⟨?_, ?_, ?_, ?_⟩
  · intro c hc1 hc2 r hr y w h hw hh hy1 hy2
    have hw4 : (0 : ℚ) < w / 4 := by positivity
    have hh3 : (0 : ℚ) < h / 3 := by positivity
    have hcx : pyTrunc ((c : ℚ) * (w / 4) / (w / 4)) = c :=
      pyTrunc_int_mul_div (by omega) hw4
    have hcy : pyTrunc (y / (h / 3)) = (r : ℤ) := by
      apply pyTrunc_div_eq_of_strict (Int.ofNat_nonneg _) hh3
      · push_cast
        exact hy1
      · push_cast
        exact hy2
    rw [pg_grid_section_eq, hcx, hcy,
      min_eq_left (show c ≤ 3 from hc2),
      min_eq_left (show ((r : ℕ) : ℤ) ≤ 2 by omega)]
  · intro r hr1 hr2 c hc x w h hw hh hx1 hx2
    have hw4 : (0 : ℚ) < w / 4 := by positivity
    have hh3 : (0 : ℚ) < h / 3 := by positivity
    have hcx : pyTrunc (x / (w / 4)) = ((c : ℕ) : ℤ) := by
      apply pyTrunc_div_eq_of_strict (Int.ofNat_nonneg _) hw4
      · push_cast
        exact hx1
      · push_cast
        exact hx2
    have hcy : pyTrunc ((r : ℚ) * (h / 3) / (h / 3)) = r :=
      pyTrunc_int_mul_div (by omega) hh3
    rw [pg_grid_section_eq, hcx, hcy,
      min_eq_left (show r ≤ 2 from hr2),
      min_eq_left (show ((c : ℕ) : ℤ) ≤ 3 by omega)]
  · intro r hr y w h hw hh hy1 hy2
    have hw4 : (0 : ℚ) < w / 4 := by positivity
    have hh3 : (0 : ℚ) < h / 3 := by positivity
    have hcx : pyTrunc (w / (w / 4)) = (4 : ℤ) := by
      have hrw : w / (w / 4) = 4 := by
        rw [div_eq_iff (ne_of_gt hw4)]
        ring
      rw [hrw]
      exact pyTrunc_eq_of_mem (by norm_num) (by norm_num) (by norm_num)
    have hcy : pyTrunc (y / (h / 3)) = (r : ℤ) := by
      apply pyTrunc_div_eq_of_strict (Int.ofNat_nonneg _) hh3
      · push_cast
        exact hy1
      · push_cast
        exact hy2
    rw [pg_grid_section_eq, hcx, hcy,
      min_eq_right (show (3 : ℤ) ≤ 4 by norm_num),
      min_eq_left (show ((r : ℕ) : ℤ) ≤ 2 by omega)]
    omega
  · intro c hc x w h hw hh hx1 hx2
    have hw4 : (0 : ℚ) < w / 4 := by positivity
    have hh3 : (0 : ℚ) < h / 3 := by positivity
    have hcx : pyTrunc (x / (w / 4)) = ((c : ℕ) : ℤ) := by
      apply pyTrunc_div_eq_of_strict (Int.ofNat_nonneg _) hw4
      · push_cast
        exact hx1
      · push_cast
        exact hx2
    have hcy : pyTrunc (h / (h / 3)) = (3 : ℤ) := by
      have hrh : h / (h / 3) = 3 := by
        rw [div_eq_iff (ne_of_gt hh3)]
        ring
      rw [hrh]
      exact pyTrunc_eq_of_mem (by norm_num) (by norm_num) (by norm_num)
    rw [pg_grid_section_eq, hcx, hcy,
      min_eq_right (show (2 : ℤ) ≤ 3 by norm_num),
      min_eq_left (show ((c : ℕ) : ℤ) ≤ 3 by omega)]

/-- C9 witness: in the `[0,900]` square, (1) the vertical divider
`x = 225` with `y = 150` (row 0) gives cell 2; (2) the horizontal divider
`y = 300` with `x = 100` (column 0) gives cell 5; (3) the outer edge
`x = 900` with `y = 150` gives cell 4 (last column of row 0); (4) the
outer edge `y = 900` with `x = 100` gives cell 9 (last row, column 0). -/
theorem c9_boundary_tie_break_witness :
    ((1 : ℤ) ≤ 1 ∧ ((0 : ℕ) : ℚ) * (900 / 3) < 150 ∧
      (150 : ℚ) < (((0 : ℕ) : ℚ) + 1) * (900 / 3) ∧
      PG.get_grid_section (((1 : ℤ) : ℚ) * (900 / 4)) 150 900 900 =
        (0 : ℕ) * 4 + 1 + 1) ∧
    ((1 : ℤ) ≤ 1 ∧ ((0 : ℕ) : ℚ) * (900 / 4) < 100 ∧
      (100 : ℚ) < (((0 : ℕ) : ℚ) + 1) * (900 / 4) ∧
      PG.get_grid_section 100 (((1 : ℤ) : ℚ) * (900 / 3)) 900 900 =
        1 * 4 + (0 : ℕ) + 1) ∧
    (((0 : ℕ) : ℚ) * (900 / 3) < 150 ∧
      PG.get_grid_section 900 150 900 900 = (0 : ℕ) * 4 + 4) ∧
    (((0 : ℕ) : ℚ) * (900 / 4) < 100 ∧
      PG.get_grid_section 100 900 900 900 = 2 * 4 + (0 : ℕ) + 1) := by
  refine ⟨⟨by norm_num, by norm_num, by norm_num, ?_⟩,
    ⟨by norm_num, by norm_num, by norm_num, ?_⟩,
    ⟨by norm_num, ?_⟩, ⟨by norm_num, ?_⟩⟩
  · exact c9_boundary_tie_break.1 1 (by norm_num) (by norm_num) 0
      (by norm_num) 150 900 900 (by norm_num) (by norm_num) (by norm_num)
      (by norm_num)
  · exact c9_boundary_tie_break.2.1 1 (by norm_num) (by norm_num) 0
      (by norm_num) 100 900 900 (by norm_num) (by norm_num) (by norm_num)
      (by norm_num)
  · exact c9_boundary_tie_break.2.2.1 0 (by norm_num) 150 900 900
      (by norm_num) (by norm_num) (by norm_num) (by norm_num)
  · exact c9_boundary_tie_break.2.2.2 0 (by norm_num) 100 900 900
      (by norm_num) (by norm_num) (by norm_num) (by norm_num)

lemma insertByX_length (a : ℤ × ℚ × ℚ) (l : List (ℤ × ℚ × ℚ)) :
    (insertByX a l).length = l.length + 1 := by
  induction l with
  | nil => rfl
  | cons b t ih =>
    unfold insertByX
    split
    · simp
    · simp [ih]

lemma sortByX_length (l : List (ℤ × ℚ × ℚ)) :
    (sortByX l).length = l.length := by
  suffices h : ∀ acc : List (ℤ × ℚ × ℚ),
      (l.foldl (fun acc a => insertByX a acc) acc).length =
        acc.length + l.length by
    simpa using h []
  induction l with
  | nil => simp
  | cons b t ih =>
    intro acc
    simp only [List.foldl_cons, ih, insertByX_length, List.length_cons]
    omega

lemma length_filter_add_not {α : Type} (p : α → Bool) (l : List α) :
    (l.filter p).length + (l.filter fun a => !(p a)).length = l.length := by
  induction l with
  | nil => rfl
  | cons b t ih =>
    by_cases h : p b = true
    · simp [List.filter_cons, h, ih]
      omega
    · simp only [Bool.not_eq_true] at h
      simp [List.filter_cons, h, ih]
      omega

/-- C3: the code's corner resolver is exactly the resolver the spec
describes: centroid, above/below partition, exactly-2-each check, stable
x-ascending sort, `(TL, TR, BL, BR)` id tuple.  (The code's initial
`len != 4` gate is subsumed: two partitions of size 2 force 4 points.) -/
theorem c3_corner_resolver_matches_spec (l : List (ℤ × ℚ × ℚ)) :
    PG.determine_grid_corners l = cornerResolverSpec l := by
  by_cases h : l.length = 4
  · simp only [PG.determine_grid_corners, cornerResolverSpec]
    rw [if_neg (by omega)]
  · simp only [PG.determine_grid_corners, cornerResolverSpec]
    rw [if_pos h]
    set cY := ((l.map fun m => m.2.2).sum) / (l.length : ℚ) with hcY
    set t := sortByX (l.filter fun m => decide (m.2.2 < cY)) with ht
    set b := sortByX (l.filter fun m => decide (¬ (m.2.2 < cY))) with hb
    have hlen : t.length + b.length = l.length := by
      rw [ht, hb, sortByX_length, sortByX_length]
      have h2 := length_filter_add_not (fun m => decide (m.2.2 < cY)) l
      simp only [← decide_not] at h2
      exact h2
    clear_value t b
    rcases t with _ | ⟨a1, _ | ⟨a2, _ | ⟨a3, t'⟩⟩⟩ <;>
      rcases b with _ | ⟨b1, _ | ⟨b2, _ | ⟨b3, b'⟩⟩⟩ <;>
      first
        | rfl
        | (exfalso
           simp only [List.length_cons, List.length_nil] at hlen
           omega)

lemma determine_grid_corners_eq_none_of_length_ne_four
    (l : List (ℤ × ℚ × ℚ)) (h : l.length ≠ 4) :
    PG.determine_grid_corners l = none := by
  unfold PG.determine_grid_corners
  rw [if_pos h]

/-- C2 (amended): whenever only 3 reference markers are known for the frame
(live or remembered), corner resolution fails — `determine_grid_corners`
requires exactly 4 candidates — and no homography is produced; the `>= 3`
gate alone is not sufficient, so there is no quorum-3 mode. -/
theorem c2_three_markers_no_homography (mem : Mem)
    (dets : List (ℤ × ℚ × ℚ)) (t : ℚ)
    (h : (PG.known_ref_markers mem dets t).length = 3) :
    (PG.calculate_perspective_transform mem dets t).1 = none := by
  simp only [PG.calculate_perspective_transform]
  rw [if_neg (by omega), determine_grid_corners_eq_none_of_length_ne_four _
    (by omega)]

/-- C2 counterexample: a frame with exactly reference markers 1, 2, 3 known
at `(0,0)`, `(100,0)`, `(0,100)` — two above the centroid and one below,
each group separable by x, i.e. as valid a top/bottom split as three points
admit — still fails corner resolution (`determine_grid_corners` demands
exactly 4 candidates) and produces no homography, refuting the quorum-3
claim. -/
theorem c2_three_markers_fails :
    (PG.known_ref_markers [] [(1, (0, 0)), (2, (100, 0)), (3, (0, 100))]
        0).length = 3 ∧
      PG.determine_grid_corners
        (PG.known_ref_markers [] [(1, (0, 0)), (2, (100, 0)), (3, (0, 100))]
          0) = none ∧
      (PG.calculate_perspective_transform []
          [(1, (0, 0)), (2, (100, 0)), (3, (0, 100))] 0).1 = none := by
  have h3 : (PG.known_ref_markers []
      [(1, (0, 0)), (2, (100, 0)), (3, (0, 100))] 0).length = 3 := by
    norm_num [PG.known_ref_markers, PG.current_ref_centers,
      PG.update_marker_memory, dictInsert, PG.REFERENCE_MARKERS,
      PG.memory_timeout, List.foldl_cons, List.foldl_nil, List.any_cons,
      List.any_nil, List.filter_cons, List.filter_nil]
  refine ⟨h3, determine_grid_corners_eq_none_of_length_ne_four _ (by omega),
    ?_⟩
  simp only [PG.calculate_perspective_transform]
  rw [if_neg (by omega),
    determine_grid_corners_eq_none_of_length_ne_four _ (by omega)]

/-- C2 witness: the concrete 3-marker frame above satisfies the amended
theorem's hypothesis and yields no homography. -/
theorem c2_three_markers_no_homography_witness :
    (PG.known_ref_markers [] [(1, (0, 0)), (2, (100, 0)), (3, (0, 100))]
        0).length = 3 ∧
      (PG.calculate_perspective_transform []
          [(1, (0, 0)), (2, (100, 0)), (3, (0, 100))] 0).1 = none := by
  have h3 : (PG.known_ref_markers []
      [(1, (0, 0)), (2, (100, 0)), (3, (0, 100))] 0).length = 3 := by
    norm_num [PG.known_ref_markers, PG.current_ref_centers,
      PG.update_marker_memory, dictInsert, PG.REFERENCE_MARKERS,
      PG.memory_timeout, List.foldl_cons, List.foldl_nil, List.any_cons,
      List.any_nil, List.filter_cons, List.filter_nil]
  exact ⟨h3, c2_three_markers_no_homography _ _ _ h3⟩

lemma dictLookup_map_update {β : Type} (t : List (ℤ × β)) (k : ℤ) (v : β)
    (h : (t.any fun p => decide (p.1 = k)) = true) :
    dictLookup k (t.map fun p => if p.1 = k then (k, v) else p) = some v := by
  induction t with
  | nil => simp at h
  | cons a t ih =>
    simp only [List.any_cons, Bool.or_eq_true, decide_eq_true_eq] at h
    simp only [List.map_cons]
    by_cases ha : a.1 = k
    · simp [ha, dictLookup]
    · rw [if_neg ha]
      simp only [dictLookup, if_neg ha]
      exact ih (by simpa using h.resolve_left ha)

lemma dictLookup_append_single {β : Type} (t : List (ℤ × β)) (k : ℤ) (v : β)
    (h : (t.any fun p => decide (p.1 = k)) = false) :
    dictLookup k (t ++ [(k, v)]) = some v := by
  induction t with
  | nil => simp [dictLookup]
  | cons a t ih =>
    simp only [List.any_cons, Bool.or_eq_false_iff, decide_eq_false_iff_not] at h
    simp only [List.cons_append, dictLookup, if_neg h.1]
    exact ih (by simpa using h.2)

lemma dictLookup_dictInsert_self {β : Type} (d : List (ℤ × β)) (k : ℤ)
    (v : β) : dictLookup k (dictInsert d k v) = some v := by
  unfold dictInsert
  split
  · exact dictLookup_map_update d k v (by assumption)
  · rename_i hany
    exact dictLookup_append_single d k v (Bool.eq_false_iff.mpr hany)

lemma dictLookup_map_update_ne {β : Type} (t : List (ℤ × β)) (k k' : ℤ)
    (v : β) (h : k' ≠ k) :
    dictLookup k' (t.map fun p => if p.1 = k then (k, v) else p) =
      dictLookup k' t := by
  induction t with
  | nil => rfl
  | cons a t ih =>
    simp only [List.map_cons]
    by_cases ha : a.1 = k
    · rw [if_pos ha]
      show (if k = k' then _ else _) = _
      rw [if_neg fun hk => h hk.symm]
      simp only [dictLookup]
      rw [if_neg (show ¬ a.1 = k' from ha ▸ fun hk => h hk.symm), ih]
    · rw [if_neg ha]
      simp only [dictLookup, ih]

lemma dictLookup_append_ne {β : Type} (t : List (ℤ × β)) (k k' : ℤ)
    (v : β) (h : k' ≠ k) :
    dictLookup k' (t ++ [(k, v)]) = dictLookup k' t := by
  induction t with
  | nil =>
    show (if k = k' then _ else _) = _
    rw [if_neg fun hk => h hk.symm]
  | cons a t ih =>
    simp only [List.cons_append, dictLookup]
    by_cases ha : a.1 = k'
    · rw [if_pos ha, if_pos ha]
    · rw [if_neg ha, if_neg ha]
      exact ih

lemma dictLookup_dictInsert_ne {β : Type} (d : List (ℤ × β)) (k k' : ℤ)
    (v : β) (h : k' ≠ k) :
    dictLookup k' (dictInsert d k v) = dictLookup k' d := by
  unfold dictInsert
  split
  · exact dictLookup_map_update_ne d k k' v h
  · exact dictLookup_append_ne d k k' v h

lemma pm_foldl_lookup_not_mem (c : List (ℤ × ℤ))
    (acc : List (ℤ × ℤ) × List (ℤ × ℤ)) (k : ℤ)
    (h : k ∉ c.map Prod.fst) :
    dictLookup k (c.foldl pmStep acc).1 = dictLookup k acc.1 := by
  induction c generalizing acc with
  | nil => rfl
  | cons a t ih =>
    simp only [List.map_cons, List.mem_cons, not_or] at h
    rw [List.foldl_cons, ih _ h.2]
    unfold pmStep
    split
    · rfl
    · exact dictLookup_dictInsert_ne _ _ _ _ h.1

lemma pm_foldl_lookup (c : List (ℤ × ℤ))
    (acc : List (ℤ × ℤ) × List (ℤ × ℤ))
    (hnd : (c.map Prod.fst).Nodup) :
    ∀ kv ∈ c, dictLookup kv.1 (c.foldl pmStep acc).1 = some kv.2 := by
  induction c generalizing acc with
  | nil => intro kv hkv; simp at hkv
  | cons a t ih =>
    simp only [List.map_cons, List.nodup_cons] at hnd
    intro kv hkv
    rcases List.mem_cons.mp hkv with rfl | hmem
    · rw [List.foldl_cons, pm_foldl_lookup_not_mem _ _ _ hnd.1]
      unfold pmStep
      split
      · assumption
      · exact dictLookup_dictInsert_self _ _ _
    · exact ih _ hnd.2 kv hmem

lemma pm_foldl_fixed (c : List (ℤ × ℤ))
    (acc : List (ℤ × ℤ) × List (ℤ × ℤ))
    (h : ∀ kv ∈ c, dictLookup kv.1 acc.1 = some kv.2) :
    c.foldl pmStep acc = acc := by
  induction c with
  | nil => rfl
  | cons a t ih =>
    rw [List.foldl_cons]
    have ha : pmStep acc a = acc := by
      unfold pmStep
      rw [if_pos (h a (by simp))]
    rw [ha]
    exact ih fun kv hkv => h kv (by simp [hkv])

/-- C4: a stored cell is overwritten (and a change event emitted) only when
the newly computed cell differs or the marker is new — consequently running
the edge-trigger update loop a second time with the same computed cells
changes nothing and emits no events (idempotence of the edge trigger). -/
theorem c4_edge_trigger_idempotent (d computed : List (ℤ × ℤ))
    (hnd : (computed.map Prod.fst).Nodup) :
    processMarkers (processMarkers d computed).1 computed =
      ((processMarkers d computed).1, []) := by
  unfold processMarkers
  exact pm_foldl_fixed _ _ fun kv hkv =>
    pm_foldl_lookup computed (d, []) hnd kv hkv

/-- C4 witness: after markers 7 and 8 are first mapped to cells 5 and 2,
re-running the update loop with the same computed cells leaves the mapping
unchanged and emits no events. -/
theorem c4_edge_trigger_idempotent_witness :
    (([(7, 5), (8, 2)] : List (ℤ × ℤ)).map Prod.fst).Nodup ∧
      processMarkers (processMarkers [] [(7, 5), (8, 2)]).1 [(7, 5), (8, 2)] =
        ((processMarkers [] [(7, 5), (8, 2)]).1, []) :=
  ⟨by decide, c4_edge_trigger_idempotent [] [(7, 5), (8, 2)] (by decide)⟩

/-- C5: when corner resolution (or any part of the transform computation)
fails, the failure is a returned value (`none`), the frame's object-mapping
step is skipped entirely — no change events — and the persisted
marker-to-cell mapping is left exactly as it was. -/
theorem c5_resolution_failure_skips_frame (s : TrackState) (f : FrameInput)
    (h : (PG.calculate_perspective_transform s.refMem f.dets f.tnow).1 =
      none) :
    (PG.frame_step s f).1.markerData = s.markerData ∧
      (PG.frame_step s f).2 = [] ∧
      (PG.frame_step s f).1.lastSave = s.lastSave := by
  simp only [PG.frame_step]
  rw [h]
  exact ⟨rfl, rfl, rfl⟩

/-- C5 witness: with no reference markers known at all, the transform is
`none` and a frame leaves the persisted mapping `[(7, 3)]` untouched. -/
theorem c5_resolution_failure_skips_frame_witness :
    (PG.calculate_perspective_transform [] [] 5).1 = none ∧
      ((PG.frame_step ⟨[], [], [(7, 3)], 0⟩ ⟨[], 5, id⟩).1.markerData =
          [(7, 3)] ∧
        (PG.frame_step ⟨[], [], [(7, 3)], 0⟩ ⟨[], 5, id⟩).2 = [] ∧
        (PG.frame_step ⟨[], [], [(7, 3)], 0⟩ ⟨[], 5, id⟩).1.lastSave = 0) := by
  have h : (PG.calculate_perspective_transform [] [] 5).1 = none := by
    norm_num [PG.calculate_perspective_transform, PG.known_ref_markers,
      PG.current_ref_centers, PG.update_marker_memory, PG.REFERENCE_MARKERS,
      List.foldl_nil, List.filter_nil]
  exact ⟨h, c5_resolution_failure_skips_frame ⟨[], [], [(7, 3)], 0⟩
    ⟨[], 5, id⟩ h⟩

/-- C6 (amended): the whole map-objects / edge-trigger / persist block is
rate-limited, not just the persist: in a frame where a homography is
available, the mapping and change detection run only when the minimum save
interval has elapsed — and then every entry of Object Memory's snapshot is
transformed, bucketed, and edge-trigger compared; in a frame within the
interval, nothing is compared, no assignment changes, and no event is
emitted even though a homography is available. -/
theorem c6_mapping_gated_by_save_interval (s : TrackState) (f : FrameInput)
    (hav : (PG.calculate_perspective_transform s.refMem f.dets
      f.tnow).1.isSome = true) :
    (f.tnow - s.lastSave < PG.save_interval →
      (PG.frame_step s f).1.markerData = s.markerData ∧
        (PG.frame_step s f).2 = []) ∧
    (PG.save_interval ≤ f.tnow - s.lastSave →
      (PG.frame_step s f).1.markerData =
        (processMarkers
          (PG.cleanup_expired_markers_from_json s.markerData
            (PG.update_non_corner_marker_memory s.objMem f.dets f.tnow)
            f.tnow)
          ((PG.get_all_non_corner_markers
            (PG.update_non_corner_marker_memory s.objMem f.dets f.tnow)
            f.tnow).map fun o =>
              (o.1, PG.get_grid_section (f.T o.2).1 (f.T o.2).2 900 900))).1 ∧
      (PG.frame_step s f).2 =
        (processMarkers
          (PG.cleanup_expired_markers_from_json s.markerData
            (PG.update_non_corner_marker_memory s.objMem f.dets f.tnow)
            f.tnow)
          ((PG.get_all_non_corner_markers
            (PG.update_non_corner_marker_memory s.objMem f.dets f.tnow)
            f.tnow).map fun o =>
              (o.1, PG.get_grid_section (f.T o.2).1 (f.T o.2).2 900 900))).2) := by
  obtain ⟨v, hv⟩ := Option.isSome_iff_exists.mp hav
  simp only [PG.frame_step]
  rw [hv]
  constructor
  · intro hlt
    rw [if_neg (not_le.mpr hlt)]
    exact ⟨rfl, rfl⟩
  · intro hge
    rw [if_pos hge]
    exact ⟨rfl, rfl⟩

/-- C6 counterexample: a frame at `t = 1/2` (half a second after the last
save) with all four reference corners remembered — so a homography is
available — and object 7 remembered at `(450, 450)`, which buckets to cell
7 while the persisted mapping still records cell 1: the frame emits no
change event and leaves the assignment at cell 1, because the whole
mapping/edge-trigger block (not just the persist) is behind the
save-interval gate. -/
theorem c6_mapping_skipped_within_interval :
    (PG.calculate_perspective_transform
        [(1, ((0, 0), 0)), (2, ((900, 0), 0)), (3, ((0, 900), 0)),
          (4, ((900, 900), 0))] [] (1 / 2)).1.isSome = true ∧
      PG.get_grid_section 450 450 900 900 = 7 ∧
      dictLookup 7 [((7 : ℤ), (1 : ℤ))] = some 1 ∧ ((7 : ℤ) ≠ 1) ∧
      (PG.frame_step
          ⟨[(1, ((0, 0), 0)), (2, ((900, 0), 0)), (3, ((0, 900), 0)),
              (4, ((900, 900), 0))], [(7, ((450, 450), 0))], [(7, 1)], 0⟩
          ⟨[], 1 / 2, id⟩).1.markerData = [(7, 1)] ∧
      (PG.frame_step
          ⟨[(1, ((0, 0), 0)), (2, ((900, 0), 0)), (3, ((0, 900), 0)),
              (4, ((900, 900), 0))], [(7, ((450, 450), 0))], [(7, 1)], 0⟩
          ⟨[], 1 / 2, id⟩).2 = [] := by
  have hsome : (PG.calculate_perspective_transform
      [(1, ((0, 0), 0)), (2, ((900, 0), 0)), (3, ((0, 900), 0)),
        (4, ((900, 900), 0))] [] (1 / 2)).1 =
      some [(0, 0), (900, 0), (0, 900), (900, 900)] := by
    norm_num [PG.calculate_perspective_transform, PG.known_ref_markers,
      PG.current_ref_centers, PG.update_marker_memory, PG.REFERENCE_MARKERS,
      PG.memory_timeout, PG.determine_grid_corners,
      sortByX, insertByX, dictInsert, dictLookup,
      List.foldl_cons, List.foldl_nil, List.any_cons, List.any_nil,
      List.filter_cons, List.filter_nil, List.map_cons, List.map_nil,
      List.sum_cons, List.sum_nil]
  have h3 : PG.get_grid_section 450 450 900 900 = 7 := by
    simp only [PG.get_grid_section, PG.GRID_WIDTH_SECTIONS,
      PG.GRID_HEIGHT_SECTIONS, pyTrunc]
    norm_num
  refine ⟨by rw [hsome]; rfl, h3, by simp [dictLookup], by decide, ?_, ?_⟩ <;>
    (simp only [PG.frame_step]
     rw [hsome]
     rw [if_neg (by norm_num [PG.save_interval])])

/-- C6 witness: the same frame satisfies the amended theorem's hypotheses
(homography available, interval not yet elapsed), and the theorem yields
the unchanged mapping and empty event list. -/
theorem c6_mapping_gated_by_save_interval_witness :
    (PG.calculate_perspective_transform
        [(1, ((0, 0), 0)), (2, ((900, 0), 0)), (3, ((0, 900), 0)),
          (4, ((900, 900), 0))] [] (1 / 2)).1.isSome = true ∧
      (1 / 2 : ℚ) - 0 < PG.save_interval ∧
      (PG.frame_step
          ⟨[(1, ((0, 0), 0)), (2, ((900, 0), 0)), (3, ((0, 900), 0)),
              (4, ((900, 900), 0))], [(7, ((450, 450), 0))], [(7, 1)], 0⟩
          ⟨[], 1 / 2, id⟩).1.markerData = [(7, 1)] ∧
      (PG.frame_step
          ⟨[(1, ((0, 0), 0)), (2, ((900, 0), 0)), (3, ((0, 900), 0)),
              (4, ((900, 900), 0))], [(7, ((450, 450), 0))], [(7, 1)], 0⟩
          ⟨[], 1 / 2, id⟩).2 = [] := by
  have hsome : (PG.calculate_perspective_transform
      [(1, ((0, 0), 0)), (2, ((900, 0), 0)), (3, ((0, 900), 0)),
        (4, ((900, 900), 0))] [] (1 / 2)).1 =
      some [(0, 0), (900, 0), (0, 900), (900, 900)] := by
    norm_num [PG.calculate_perspective_transform, PG.known_ref_markers,
      PG.current_ref_centers, PG.update_marker_memory, PG.REFERENCE_MARKERS,
      PG.memory_timeout, PG.determine_grid_corners,
      sortByX, insertByX, dictInsert, dictLookup,
      List.foldl_cons, List.foldl_nil, List.any_cons, List.any_nil,
      List.filter_cons, List.filter_nil, List.map_cons, List.map_nil,
      List.sum_cons, List.sum_nil]
  have hav : (PG.calculate_perspective_transform
      [(1, ((0, 0), 0)), (2, ((900, 0), 0)), (3, ((0, 900), 0)),
        (4, ((900, 900), 0))] [] (1 / 2)).1.isSome = true := by
    rw [hsome]; rfl
  refine ⟨hav, by norm_num [PG.save_interval], ?_⟩
  exact (c6_mapping_gated_by_save_interval
    ⟨[(1, ((0, 0), 0)), (2, ((900, 0), 0)), (3, ((0, 900), 0)),
        (4, ((900, 900), 0))], [(7, ((450, 450), 0))], [(7, 1)], 0⟩
    ⟨[], 1 / 2, id⟩ hav).1 (by norm_num [PG.save_interval])

lemma mem_dictInsert_ne {β : Type} {d : List (ℤ × β)} {k id : ℤ} {v e : β}
    (hmem : (id, e) ∈ dictInsert d k v) (hne : k ≠ id) : (id, e) ∈ d := by
  unfold dictInsert at hmem
  split at hmem
  · obtain ⟨p, hp, hpe⟩ := List.mem_map.mp hmem
    by_cases hpk : p.1 = k
    · rw [if_pos hpk] at hpe
      exact absurd (congrArg Prod.fst hpe) (by simpa using hne)
    · rw [if_neg hpk] at hpe
      exact hpe ▸ hp
  · rcases List.mem_append.mp hmem with h | h
    · exact h
    · simp only [List.mem_singleton, Prod.mk.injEq] at h
      exact absurd h.1.symm hne

lemma mem_obj_foldl {dets : List (ℤ × ℚ × ℚ)} {tnow : ℚ} {id : ℤ}
    (hdet : ∀ d ∈ dets, d.1 ≠ id) :
    ∀ (mem : Mem) (e : MemEntry),
      (id, e) ∈ dets.foldl
        (fun m d =>
          if d.1 ∈ PG.REFERENCE_MARKERS then m
          else dictInsert m d.1 (d.2, tnow)) mem →
      (id, e) ∈ mem := by
  induction dets with
  | nil => intro mem e h; exact h
  | cons d t ih =>
    intro mem e h
    rw [List.foldl_cons] at h
    have hd : d.1 ≠ id := hdet d (by simp)
    have ht : ∀ d' ∈ t, d'.1 ≠ id := fun d' hd' => hdet d' (by simp [hd'])
    have h2 := ih ht _ e h
    split at h2
    · exact h2
    · exact mem_dictInsert_ne h2 hd

/-- C7: an object marker whose every memory entry is older than the Object
Memory timeout, and which is not observed in the current frame, is evicted
by the memory update and absent from the snapshot — hence absent from the
frame's cell computation until freshly detected. -/
theorem c7_object_memory_expiry (mem : Mem) (dets : List (ℤ × ℚ × ℚ))
    (tnow : ℚ) (id : ℤ)
    (hold : ∀ e : MemEntry, (id, e) ∈ mem →
      PG.non_corner_memory_timeout < tnow - e.2)
    (hdet : ∀ d ∈ dets, d.1 ≠ id) :
    id ∉ (PG.update_non_corner_marker_memory mem dets tnow).map Prod.fst ∧
      id ∉ (PG.get_all_non_corner_markers
        (PG.update_non_corner_marker_memory mem dets tnow) tnow).map
        Prod.fst := by
  have hupd : id ∉ (PG.update_non_corner_marker_memory mem dets
      tnow).map Prod.fst := by
    intro hid
    simp only [PG.update_non_corner_marker_memory] at hid
    obtain ⟨p, hp, hp1⟩ := List.mem_map.mp hid
    obtain ⟨hmem1, hkeep⟩ := List.mem_filter.mp hp
    have hpeta : p = (id, p.2) := by rw [← hp1]
    rw [hpeta] at hmem1
    have hmem0 : (id, p.2) ∈ mem := mem_obj_foldl hdet mem p.2 hmem1
    have := hold p.2 hmem0
    simp only [decide_eq_true_eq] at hkeep
    linarith
  refine ⟨hupd, ?_⟩
  intro hid
  simp only [PG.get_all_non_corner_markers] at hid
  obtain ⟨p, hp, hp1⟩ := List.mem_map.mp hid
  obtain ⟨q, hq, hq1⟩ := List.mem_map.mp hp
  obtain ⟨hq2, _⟩ := List.mem_filter.mp hq
  exact hupd (List.mem_map.mpr ⟨q, hq2, by rw [← hp1, ← hq1]⟩)

/-- C7 witness: marker 7 last seen at time 0, not redetected, is gone from
memory and snapshot at time 20 (timeout 10). -/
theorem c7_object_memory_expiry_witness :
    (∀ e : MemEntry, ((7 : ℤ), e) ∈ ([(7, ((450, 450), 0))] : Mem) →
      PG.non_corner_memory_timeout < 20 - e.2) ∧
      (∀ d ∈ ([] : List (ℤ × ℚ × ℚ)), d.1 ≠ 7) ∧
      7 ∉ (PG.update_non_corner_marker_memory [(7, ((450, 450), 0))] []
        20).map Prod.fst ∧
      7 ∉ (PG.get_all_non_corner_markers
        (PG.update_non_corner_marker_memory [(7, ((450, 450), 0))] [] 20)
        20).map Prod.fst := by
  have h1 : ∀ e : MemEntry, ((7 : ℤ), e) ∈ ([(7, ((450, 450), 0))] : Mem) →
      PG.non_corner_memory_timeout < 20 - e.2 := by
    intro e he
    simp only [List.mem_singleton, Prod.mk.injEq] at he
    rw [he.2]
    norm_num [PG.non_corner_memory_timeout]
  have h2 : ∀ d ∈ ([] : List (ℤ × ℚ × ℚ)), d.1 ≠ 7 := by
    intro d hd
    simp at hd
  have h := c7_object_memory_expiry [(7, ((450, 450), 0))] [] 20 7 h1 h2
  exact ⟨h1, h2, h.1, h.2⟩

lemma keys_dictInsert {β : Type} {d : List (ℤ × β)} {k k' : ℤ} {v : β}
    (h : k' ∈ (dictInsert d k v).map Prod.fst) :
    k' ∈ d.map Prod.fst ∨ k' = k := by
  unfold dictInsert at h
  split at h
  · rw [List.map_map] at h
    obtain ⟨p, hp, hp1⟩ := List.mem_map.mp h
    by_cases hpk : p.1 = k
    · right
      rw [← hp1]
      simp [hpk]
    · left
      exact List.mem_map.mpr ⟨p, hp, by simpa [hpk] using hp1⟩
  · rw [List.map_append] at h
    rcases List.mem_append.mp h with h | h
    · exact Or.inl h
    · simp only [List.map_cons, List.map_nil, List.mem_singleton] at h
      exact Or.inr h

lemma keys_filter_subset {β : Type} {d : List (ℤ × β)} {p : ℤ × β → Bool}
    {k : ℤ} (h : k ∈ (d.filter p).map Prod.fst) : k ∈ d.map Prod.fst := by
  obtain ⟨q, hq, hq1⟩ := List.mem_map.mp h
  exact List.mem_map.mpr ⟨q, (List.mem_filter.mp hq).1, hq1⟩

lemma keys_obj_foldl {dets : List (ℤ × ℚ × ℚ)} {tnow : ℚ} :
    ∀ (mem : Mem) (k : ℤ),
      k ∈ (dets.foldl
        (fun m d =>
          if d.1 ∈ PG.REFERENCE_MARKERS then m
          else dictInsert m d.1 (d.2, tnow)) mem).map Prod.fst →
      k ∈ mem.map Prod.fst ∨ k ∉ PG.REFERENCE_MARKERS := by
  induction dets with
  | nil => intro mem k h; exact Or.inl h
  | cons d t ih =>
    intro mem k h
    rw [List.foldl_cons] at h
    rcases ih _ k h with h2 | h2
    · split at h2
      · exact Or.inl h2
      · rcases keys_dictInsert h2 with h3 | h3
        · exact Or.inl h3
        · rename_i href
          exact Or.inr (h3 ▸ href)
    · exact Or.inr h2

lemma keys_update_non_corner {mem : Mem} {dets : List (ℤ × ℚ × ℚ)}
    {tnow : ℚ} {k : ℤ}
    (hmem : ∀ k' ∈ mem.map Prod.fst, k' ∉ PG.REFERENCE_MARKERS)
    (h : k ∈ (PG.update_non_corner_marker_memory mem dets tnow).map
      Prod.fst) : k ∉ PG.REFERENCE_MARKERS := by
  simp only [PG.update_non_corner_marker_memory] at h
  rcases keys_obj_foldl mem k (keys_filter_subset h) with h2 | h2
  · exact hmem k h2
  · exact h2

lemma keys_pm_foldl {c : List (ℤ × ℤ)} :
    ∀ (acc : List (ℤ × ℤ) × List (ℤ × ℤ)) (k : ℤ),
      k ∈ (c.foldl pmStep acc).1.map Prod.fst →
      k ∈ acc.1.map Prod.fst ∨ k ∈ c.map Prod.fst := by
  induction c with
  | nil => intro acc k h; exact Or.inl h
  | cons a t ih =>
    intro acc k h
    rw [List.foldl_cons] at h
    rcases ih _ k h with h2 | h2
    · unfold pmStep at h2
      split at h2
      · exact Or.inl h2
      · rcases keys_dictInsert h2 with h3 | h3
        · exact Or.inl h3
        · exact Or.inr (by simp [h3])
    · exact Or.inr (by simp [h2])

lemma frame_step_preserves_inv (s : TrackState) (f : FrameInput)
    (h : StateInv s) : StateInv (PG.frame_step s f).1 := by
  obtain ⟨hobj, hdata⟩ := h
  have hobj1 : ∀ k ∈ (PG.update_non_corner_marker_memory s.objMem f.dets
      f.tnow).map Prod.fst, k ∉ PG.REFERENCE_MARKERS :=
    fun k hk => keys_update_non_corner hobj hk
  simp only [PG.frame_step]
  cases hr : (PG.calculate_perspective_transform s.refMem f.dets f.tnow).1
    with
  | none => exact ⟨hobj1, hdata⟩
  | some v =>
    by_cases hgate : PG.save_interval ≤ f.tnow - s.lastSave
    · rw [if_pos hgate]
      refine ⟨hobj1, ?_⟩
      intro k hk
      rcases keys_pm_foldl _ k hk with h2 | h2
      · simp only [PG.cleanup_expired_markers_from_json] at h2
        exact hdata k (keys_filter_subset h2)
      · rw [List.map_map] at h2
        obtain ⟨o, ho, ho1⟩ := List.mem_map.mp h2
        have : k ∈ (PG.get_all_non_corner_markers
            (PG.update_non_corner_marker_memory s.objMem f.dets f.tnow)
            f.tnow).map Prod.fst := List.mem_map.mpr ⟨o, ho, ho1⟩
        simp only [PG.get_all_non_corner_markers, List.map_map] at this
        obtain ⟨q, hq, hq1⟩ := List.mem_map.mp this
        exact hobj1 k (List.mem_map.mpr ⟨q, (List.mem_filter.mp hq).1, hq1⟩)
    · rw [if_neg hgate]
      exact ⟨hobj1, hdata⟩

/-- C10: starting from the cleared persisted mapping, after any sequence of
frames every key of the persisted `marker_id → grid_section` mapping is a
non-reference marker id — reference-marker ids are never stored in Object
Memory and never written to the persisted mapping. -/
theorem c10_persisted_keys_non_reference (frames : List FrameInput) :
    ∀ k ∈ (run frames).markerData.map Prod.fst,
      k ∉ PG.REFERENCE_MARKERS := by
  have hrun : StateInv (run frames) := by
    unfold run
    have hfold : ∀ (fs : List FrameInput) (s : TrackState), StateInv s →
        StateInv (fs.foldl (fun s f => (PG.frame_step s f).1) s) := by
      intro fs
      induction fs with
      | nil => intro s hs; exact hs
      | cons f t ih =>
        intro s hs
        exact ih _ (frame_step_preserves_inv s f hs)
    exact hfold frames initState ⟨by simp [initState], by simp [initState]⟩
  exact hrun.2

/-- C10 witness: one frame detecting the four reference markers at the
square's corners plus object marker 7 at the center writes `7 → 7` to the
persisted mapping, and 7 is indeed not a reference id. -/
theorem c10_persisted_keys_non_reference_witness :
    7 ∈ (run [⟨[(1, (0, 0)), (2, (900, 0)), (3, (0, 900)), (4, (900, 900)),
        (7, (450, 450))], 5, id⟩]).markerData.map Prod.fst ∧
      (7 : ℤ) ∉ PG.REFERENCE_MARKERS := by
  have h2 : (PG.calculate_perspective_transform []
      [(1, (0, 0)), (2, (900, 0)), (3, (0, 900)), (4, (900, 900)),
        (7, (450, 450))] 5).1 =
      some [(0, 0), (900, 0), (0, 900), (900, 900)] := by
    norm_num [PG.calculate_perspective_transform, PG.known_ref_markers,
      PG.current_ref_centers, PG.update_marker_memory, PG.REFERENCE_MARKERS,
      PG.memory_timeout, PG.determine_grid_corners,
      sortByX, insertByX, dictInsert, dictLookup,
      List.foldl_cons, List.foldl_nil, List.any_cons, List.any_nil,
      List.filter_cons, List.filter_nil, List.map_cons, List.map_nil,
      List.sum_cons, List.sum_nil]
  have h1 : PG.update_non_corner_marker_memory []
      [(1, (0, 0)), (2, (900, 0)), (3, (0, 900)), (4, (900, 900)),
        (7, (450, 450))] 5 = [(7, ((450, 450), 5))] := by
    norm_num [PG.update_non_corner_marker_memory, PG.REFERENCE_MARKERS,
      PG.non_corner_memory_timeout, dictInsert,
      List.foldl_cons, List.foldl_nil, List.any_cons, List.any_nil,
      List.filter_cons, List.filter_nil]
  have h3 : PG.get_grid_section 450 450 900 900 = 7 := by
    simp only [PG.get_grid_section, PG.GRID_WIDTH_SECTIONS,
      PG.GRID_HEIGHT_SECTIONS, pyTrunc]
    norm_num
  have hmd : (run [⟨[(1, (0, 0)), (2, (900, 0)), (3, (0, 900)),
      (4, (900, 900)), (7, (450, 450))], 5, id⟩]).markerData = [(7, 7)] := by
    simp only [run, initState, List.foldl_cons, List.foldl_nil,
      PG.frame_step]
    rw [h1, h2]
    norm_num [PG.save_interval, PG.cleanup_expired_markers_from_json,
      PG.get_all_non_corner_markers, PG.non_corner_memory_timeout,
      processMarkers, pmStep, dictInsert, dictLookup, h3,
      List.filter_cons, List.filter_nil, List.map_cons, List.map_nil,
      List.foldl_cons, List.foldl_nil, List.any_cons, List.any_nil]
    simp
  have h7 : 7 ∈ (run [⟨[(1, (0, 0)), (2, (900, 0)), (3, (0, 900)),
      (4, (900, 900)), (7, (450, 450))], 5, id⟩]).markerData.map
      Prod.fst := by
    rw [hmd]
    simp
  exact ⟨h7, c10_persisted_keys_non_reference _ 7 h7⟩
